import Mathlib

/-
  Shallow embedding of the nuget-dl package cache (src/lib.rs).

  External collaborators (the HTTP client, the base64 crate, the sha2 crate,
  the XML pull parser) are modelled as parameters of an environment record:
  the logic of the repository itself (field scanning, algorithm dispatch,
  digest comparison, cache resolution, overwrite sequencing) is translated
  from the source.  Network and filesystem effects are made observable by
  having every operation return, besides its value, the final filesystem
  state and a trace of the externally visible events it performed, in order.
-/

namespace NugetDl

/-- Opaque error values: the code passes `Box<dyn Error>` around and never
inspects an error, so only the identity of an error matters. -/
inductive Err where
  | transport
  | b64Err
  | fsErr
  | other (s : String)
deriving DecidableEq

/-- Externally visible events of one resolver call, in the order they are
performed: the two registry endpoints and the filesystem mutations. -/
inductive Ev where
  | fetchMeta
  | fetchContent
  | mkdirAll
  | createFile
  | writeAll
deriving DecidableEq

/-- Result of a Rust call that can also abort the whole process:
`ok` and `err` model `Result`; `fatal` models a panic (`expect` / `unwrap`). -/
inductive Outcome (α : Type) where
  | ok (a : α)
  | err (e : Err)
  | fatal
deriving DecidableEq

/-- `enum HashAlgorithm { SHA512, Unknown(String) }` from src/lib.rs. -/
inductive HashAlgorithm where
  | SHA512
  | Unknown (s : String)
deriving DecidableEq

/-- `HashAlgorithm::from_string`: the source matches the two string literals
"SHA512" and "sha512"; every other string becomes `Unknown` verbatim. -/
def HashAlgorithm.from_string (string : String) : HashAlgorithm :=
  if string = "SHA512" || string = "sha512" then HashAlgorithm.SHA512
  else HashAlgorithm.Unknown string

/-- `struct PackageHash { hash: String, algorithm: HashAlgorithm }`. -/
structure PackageHash where
  hash : String
  algorithm : HashAlgorithm
deriving DecidableEq

/-- One item produced by the XML pull parser over the metadata document:
a start element carrying its local name, a text (characters) item, any
other event kind, or an item the parser reported as an error (the scanning
loop in `get_package_hash` silently skips those at top level). -/
inductive XmlItem where
  | startElement (localName : String)
  | characters (s : String)
  | otherEvent
  | errItem
deriving DecidableEq

/-- Result of the scanning loop of `get_package_hash`: either some
`unwrap` panicked while grabbing the text after a recognized start element,
or the loop finished with the last seen value of each optional field. -/
inductive ScanOut where
  | panic
  | done (hash : Option String) (alg : Option String)
deriving DecidableEq

/-- The event loop of `get_package_hash`: on a start element named
`PackageHash` or `PackageHashAlgorithm` the code consumes the next item and
panics unless it is a characters item; all other items are skipped. -/
def scanEvents : List XmlItem → Option String → Option String → ScanOut
  | [], h, a => ScanOut.done h a
  | [XmlItem.startElement n], h, a =>
      if n = "PackageHash" || n = "PackageHashAlgorithm" then ScanOut.panic
      else ScanOut.done h a
  | XmlItem.startElement n :: e2 :: rest, h, a =>
      if n = "PackageHash" then
        match e2 with
        | XmlItem.characters s => scanEvents rest (some s) a
        | _ => ScanOut.panic
      else if n = "PackageHashAlgorithm" then
        match e2 with
        | XmlItem.characters s => scanEvents rest h (some s)
        | _ => ScanOut.panic
      else scanEvents (e2 :: rest) h a
  | _ :: rest, h, a => scanEvents rest h a

/-- After the loop, `get_package_hash` calls `expect` on both fields (a
missing field is a process-fatal panic, not an error value) and normalizes
the algorithm string through `HashAlgorithm::from_string`. -/
def scanResult (evs : List XmlItem) : Outcome PackageHash :=
  match scanEvents evs none none with
  | ScanOut.panic => Outcome.fatal
  | ScanOut.done none _ => Outcome.fatal
  | ScanOut.done _ none => Outcome.fatal
  | ScanOut.done (some h) (some a) =>
      Outcome.ok { hash := h, algorithm := HashAlgorithm.from_string a }

/-- Outcome of reading the file at the deterministic local path. -/
inductive ReadResult where
  | bytes (bs : List Nat)
  | readErr (e : Err)
deriving DecidableEq

/-- State of the deterministic local path: absent, or present with the
outcome an open-and-read of it would produce. -/
inductive FileState where
  | absent
  | present (r : ReadResult)
deriving DecidableEq

/-- Filesystem state relevant to one resolver call: whether the target
directory exists and the state of the one deterministic file path. -/
structure FS where
  dirExists : Bool
  file : FileState
deriving DecidableEq

/-- The external world for a fixed (name, version) pair: the response of the
metadata endpoint (transport/text error, or the parsed event stream), the
response of the content endpoint, and the two external pure functions the
code calls (the base64 decoder, `none` modelling a decode error, and the
SHA-512 digest function of the sha2 crate). -/
structure Env where
  metaResponse : Except Err (List XmlItem)
  contentResponse : Except Err (List Nat)
  b64 : String → Option (List Nat)
  sha512 : List Nat → List Nat

/-- `get_package_file_name`: the deterministic file name for a pair. -/
def get_package_file_name (package_name version : String) : String :=
  package_name ++ "." ++ version ++ ".nupkg"

/-- `download_package_bytes`: one GET on the content endpoint, whole body
buffered; the trace records the single content fetch. -/
def download_package_bytes (env : Env) : Except Err (List Nat) × List Ev :=
  (env.contentResponse, [Ev.fetchContent])

/-- `get_package_hash`: one GET on the metadata endpoint; transport and
text errors propagate as errors, then the document is scanned. -/
def get_package_hash (env : Env) : Outcome PackageHash × List Ev :=
  (match env.metaResponse with
   | Except.error e => Outcome.err e
   | Except.ok evs => scanResult evs,
   [Ev.fetchMeta])

/-- The digest comparison loop of `package_matches_hash`: the source zips
the decoded reference digest with the recomputed digest and returns false
on the first differing pair; iteration stops at the shorter list. -/
def hashCompare : List Nat → List Nat → Bool
  | r :: rs, b :: bs => if r = b then hashCompare rs bs else false
  | _, _ => true

/-- Value computed by `package_matches_hash`: fetch the registry digest,
base64-decode it, dispatch on the algorithm (`Unknown` short-circuits to
false before the file is ever opened), then hash the local bytes and
compare. -/
def pmhOut (env : Env) (file : FileState) : Outcome Bool :=
  match (get_package_hash env).1 with
  | Outcome.fatal => Outcome.fatal
  | Outcome.err e => Outcome.err e
  | Outcome.ok h =>
    match env.b64 h.hash with
    | none => Outcome.err Err.b64Err
    | some reference_hash =>
      match h.algorithm with
      | HashAlgorithm.Unknown _ => Outcome.ok false
      | HashAlgorithm.SHA512 =>
        match file with
        | FileState.absent => Outcome.err Err.fsErr
        | FileState.present (ReadResult.readErr e) => Outcome.err e
        | FileState.present (ReadResult.bytes bs) =>
            Outcome.ok (hashCompare reference_hash (env.sha512 bs))

/-- `package_matches_hash` with its trace: the only external event it can
perform besides local file IO is the one metadata fetch. -/
def package_matches_hash (env : Env) (file : FileState) :
    Outcome Bool × List Ev :=
  (pmhOut env file, (get_package_hash env).2)

/-- `download_package_overwrite`: the source first calls
`download_package_bytes`, then `create_dir_all`, then `File::create`
(truncating), then `write_all`, and returns the written file handle
(modelled by the bytes now on disk). -/
def download_package_overwrite (env : Env) (fs : FS) :
    Except Err (List Nat) × FS × List Ev :=
  match download_package_bytes env with
  | (Except.error e, t) => (Except.error e, fs, t)
  | (Except.ok bytes, t) =>
      (Except.ok bytes,
       { dirExists := true, file := FileState.present (ReadResult.bytes bytes) },
       t ++ [Ev.mkdirAll, Ev.createFile, Ev.writeAll])

/-- The overwrite branch of `download_package`, lifting the overwrite
result into an `Outcome` and prefixing the trace accumulated so far. -/
def freshDownloadResult (env : Env) (fs : FS) (pre : List Ev) :
    Outcome (List Nat) × FS × List Ev :=
  match download_package_overwrite env fs with
  | (Except.ok bs, fs2, t2) => (Outcome.ok bs, fs2, pre ++ t2)
  | (Except.error e, fs2, t2) => (Outcome.err e, fs2, pre ++ t2)

/-- The `matches` computation of `download_package`: skip the check when the
path does not exist, otherwise run `package_matches_hash` and absorb any
error into `false` (`unwrap_or(false)`); a panic still propagates. -/
def checkMatches (env : Env) (fs : FS) : Outcome Bool × List Ev :=
  match fs.file with
  | FileState.absent => (Outcome.ok false, [])
  | _ =>
      (match (package_matches_hash env fs.file).1 with
       | Outcome.ok b => Outcome.ok b
       | Outcome.err _ => Outcome.ok false
       | Outcome.fatal => Outcome.fatal,
       (package_matches_hash env fs.file).2)

/-- `download_package`: compute the deterministic path, run the match
check, and either reopen the existing file untouched or fall through to
`download_package_overwrite`. -/
def download_package (env : Env) (fs : FS) :
    Outcome (List Nat) × FS × List Ev :=
  match (checkMatches env fs).1 with
  | Outcome.fatal => (Outcome.fatal, fs, (checkMatches env fs).2)
  | Outcome.err e => (Outcome.err e, fs, (checkMatches env fs).2)
  | Outcome.ok true =>
      (match fs.file with
       | FileState.present (ReadResult.bytes bs) => Outcome.ok bs
       | FileState.present (ReadResult.readErr e) => Outcome.err e
       | FileState.absent => Outcome.err Err.fsErr,
       fs, (checkMatches env fs).2)
  | Outcome.ok false => freshDownloadResult env fs (checkMatches env fs).2

/-- A start element with the given local name. -/
def isStart (f : String) : XmlItem → Bool
  | XmlItem.startElement n => n = f
  | _ => false

/-- The field named `f` occurs somewhere in the metadata document. -/
def hasField (f : String) (evs : List XmlItem) : Bool :=
  evs.any (isStart f)

/-- Well-formedness of a metadata document with respect to the scanner:
every start element named `PackageHash` or `PackageHashAlgorithm` is
immediately followed by a characters item (so no `unwrap` panics while
grabbing field text). -/
def wfDoc : List XmlItem → Bool
  | [] => true
  | [XmlItem.startElement n] => !(n = "PackageHash" || n = "PackageHashAlgorithm")
  | XmlItem.startElement n :: e2 :: rest =>
      if n = "PackageHash" || n = "PackageHashAlgorithm" then
        match e2 with
        | XmlItem.characters _ => wfDoc rest
        | _ => false
      else wfDoc (e2 :: rest)
  | _ :: rest => wfDoc rest

/-! ## General lemmas about the embedding -/

/-- Comparing any list of bytes with itself succeeds. -/
theorem hashCompare_self (l : List Nat) : hashCompare l l = true := by
  induction l with
  | nil => rfl
  | cons x xs ih => simp [hashCompare, ih]

/-- Comparing a prefix of a digest with the full digest succeeds: the zip
in the source stops at the end of the shorter list. -/
theorem hashCompare_append (l m : List Nat) : hashCompare l (l ++ m) = true := by
  induction l with
  | nil => cases m <;> rfl
  | cons x xs ih => simp [hashCompare, ih]

/-- The metadata fetcher always performs exactly the one metadata fetch. -/
theorem get_package_hash_trace (env : Env) :
    (get_package_hash env).2 = [Ev.fetchMeta] := rfl

/-- The match check on an existing file always records exactly the one
metadata fetch. -/
theorem package_matches_hash_trace (env : Env) (f : FileState) :
    (package_matches_hash env f).2 = [Ev.fetchMeta] := rfl

/-- Value of the match check, as a projection. -/
theorem package_matches_hash_fst (env : Env) (f : FileState) :
    (package_matches_hash env f).1 = pmhOut env f := rfl

/-- The overwrite path performs exactly one content fetch and never
touches the metadata endpoint. -/
theorem download_package_overwrite_fetches (env : Env) (fs : FS) :
    (download_package_overwrite env fs).2.2.count Ev.fetchContent = 1 ∧
      Ev.fetchMeta ∉ (download_package_overwrite env fs).2.2 := by
  cases h : env.contentResponse <;>
    simp [download_package_overwrite, download_package_bytes, h, List.count_cons]

/-- Trace of the overwrite branch: the accumulated prefix followed by the
trace of `download_package_overwrite`. -/
theorem freshDownloadResult_trace (env : Env) (fs : FS) (pre : List Ev) :
    (freshDownloadResult env fs pre).2.2 =
      pre ++ (download_package_overwrite env fs).2.2 := by
  rcases h : download_package_overwrite env fs with ⟨r, fs2, t2⟩
  cases r <;> simp [freshDownloadResult, h]

/-- A match-check value of `ok true` can only arise from a present,
readable file: every other file state ends in an error or `ok false`. -/
theorem pmhOut_ok_true (env : Env) (f : FileState)
    (h : pmhOut env f = Outcome.ok true) :
    ∃ bs, f = FileState.present (ReadResult.bytes bs) := by
  cases f with
  | present r =>
      cases r with
      | bytes bs => exact ⟨bs, rfl⟩
      | readErr e =>
          exfalso
          unfold pmhOut at h
          repeat' split at h
          all_goals simp_all
  | absent =>
      exfalso
      unfold pmhOut at h
      repeat' split at h
      all_goals simp_all

/-! ## C1: byte-for-byte digest comparison over the full declared length -/

/-- Environment exhibiting the truncated-digest scenario: the registry
reports algorithm SHA512 and a hash that decodes to the first 63 bytes of
the digest the external hash function assigns to the local file. -/
def envC1 : Env where
  metaResponse := Except.ok
    [XmlItem.startElement "PackageHash", XmlItem.characters "REF",
     XmlItem.startElement "PackageHashAlgorithm", XmlItem.characters "SHA512"]
  contentResponse := Except.ok []
  b64 := fun s => if s = "REF" then some (List.replicate 63 7) else none
  sha512 := fun _ => List.replicate 64 7

/-- C1: the claim says a reference digest truncated by one byte must not
match, but the comparison loop zips the two digests and stops at the end
of the shorter one, so a 63-byte reference digest that is a prefix of the
64-byte recomputed digest is reported as a match. -/
theorem c1_truncated_digest_matches :
    ((List.replicate 63 7 : List Nat) = (List.replicate 64 (7 : Nat)).take 63) ∧
      (package_matches_hash envC1
        (FileState.present (ReadResult.bytes [1, 2, 3]))).1 = Outcome.ok true := by
  constructor
  · decide
  · rfl

/-! ## C9: algorithm-name normalization is not case-insensitive -/

/-- C9 counterexample: the string "Sha512" is a casing of sha512 (its
lowercasing is "sha512"), yet `from_string` sends it to `Unknown`, not to
the known SHA512 variant: the source only matches the two exact literals. -/
theorem c9_mixed_case_not_sha512 :
    "Sha512".data.map Char.toLower = "sha512".data ∧
      HashAlgorithm.from_string "Sha512" = HashAlgorithm.Unknown "Sha512" ∧
      HashAlgorithm.from_string "Sha512" ≠ HashAlgorithm.SHA512 := by
  refine ⟨?_, rfl, by decide⟩
  decide

/-- C9 amended: `from_string` maps exactly the two literals "SHA512" and
"sha512" to the known variant, and every other string (including every
other casing) to `Unknown` carrying the original string verbatim. -/
theorem c9_from_string_exact_literals :
    HashAlgorithm.from_string "SHA512" = HashAlgorithm.SHA512 ∧
      HashAlgorithm.from_string "sha512" = HashAlgorithm.SHA512 ∧
      ∀ s : String, s ≠ "SHA512" → s ≠ "sha512" →
        HashAlgorithm.from_string s = HashAlgorithm.Unknown s := by
  refine ⟨rfl, rfl, ?_⟩
  intro s h1 h2
  simp [HashAlgorithm.from_string, h1, h2]

/-- C9 witness: the amended statement applied to the string "md5". -/
theorem c9_from_string_witness :
    HashAlgorithm.from_string "md5" = HashAlgorithm.Unknown "md5" :=
  c9_from_string_exact_literals.2.2 "md5" (by decide) (by decide)

/-! ## C10: an empty decoded reference digest matches every file -/

/-- C10: if the registry hash decodes to the empty byte string and the
algorithm is the known SHA512 variant, the zip-based comparison is over
zero pairs and succeeds, so the match check returns true for every local
file and the resolver returns the existing file as a cache hit. -/
theorem c10_empty_digest_always_matches (env : Env) (s : String) (bs : List Nat)
    (d : Bool)
    (hmeta : (get_package_hash env).1 = Outcome.ok ⟨s, HashAlgorithm.SHA512⟩)
    (hdec : env.b64 s = some []) :
    (package_matches_hash env (FileState.present (ReadResult.bytes bs))).1 =
        Outcome.ok true ∧
      download_package env ⟨d, FileState.present (ReadResult.bytes bs)⟩ =
        (Outcome.ok bs, ⟨d, FileState.present (ReadResult.bytes bs)⟩,
         [Ev.fetchMeta]) := by
  have h1 : pmhOut env (FileState.present (ReadResult.bytes bs)) = Outcome.ok true := by
    simp [pmhOut, hmeta, hdec, hashCompare]
  refine ⟨h1, ?_⟩
  simp [download_package, checkMatches, package_matches_hash, h1,
    get_package_hash_trace]

/-- Environment for the C10 witness. -/
def envC10 : Env where
  metaResponse := Except.ok
    [XmlItem.startElement "PackageHash", XmlItem.characters "E",
     XmlItem.startElement "PackageHashAlgorithm", XmlItem.characters "SHA512"]
  contentResponse := Except.ok [1]
  b64 := fun s => if s = "E" then some [] else none
  sha512 := fun _ => List.replicate 64 0

/-- C10 witness: a concrete registry whose hash decodes to the empty byte
string turns an arbitrary two-byte local file into a cache hit. -/
theorem c10_empty_digest_witness :
    download_package envC10 ⟨true, FileState.present (ReadResult.bytes [5, 6])⟩ =
      (Outcome.ok [5, 6], ⟨true, FileState.present (ReadResult.bytes [5, 6])⟩,
       [Ev.fetchMeta]) :=
  (c10_empty_digest_always_matches envC10 "E" [5, 6] true rfl rfl).2

/-! ## C2: an unknown hash algorithm always forces a fresh download -/

/-- C2: when the registry metadata carries an `Unknown` algorithm, the
match check never consults the local file (its result is the same for
every file state, since the Unknown branch returns before the file is
opened), and `download_package` always takes the fresh
download-and-overwrite path whatever the local file state. -/
theorem c2_unknown_algorithm_forces_redownload (env : Env) (s u : String)
    (hmeta : (get_package_hash env).1 = Outcome.ok ⟨s, HashAlgorithm.Unknown u⟩) :
    (∀ f1 f2 : FileState,
        package_matches_hash env f1 = package_matches_hash env f2) ∧
      ∀ fs : FS, download_package env fs =
        freshDownloadResult env fs
          (if fs.file = FileState.absent then [] else [Ev.fetchMeta]) := by
  have hp : ∀ f : FileState, pmhOut env f =
      (match env.b64 s with
       | none => Outcome.err Err.b64Err
       | some _ => Outcome.ok false) := by
    intro f
    simp only [pmhOut, hmeta]
  constructor
  · intro f1 f2
    simp only [package_matches_hash, hp]
  · intro fs
    rcases hfs : fs.file with _ | r
    · simp [download_package, checkMatches, hfs]
    · have hp' := hp (FileState.present r)
      cases h64 : env.b64 s with
      | none =>
          rw [h64] at hp'
          simp [download_package, checkMatches, package_matches_hash, hfs, hp',
            get_package_hash_trace]
      | some ref =>
          rw [h64] at hp'
          simp [download_package, checkMatches, package_matches_hash, hfs, hp',
            get_package_hash_trace]

/-- Environment for the C2 witness: the registry reports algorithm "md5",
which `from_string` turns into the Unknown variant. -/
def envC2 : Env where
  metaResponse := Except.ok
    [XmlItem.startElement "PackageHash", XmlItem.characters "xyz",
     XmlItem.startElement "PackageHashAlgorithm", XmlItem.characters "md5"]
  contentResponse := Except.ok [9]
  b64 := fun _ => some [1, 2]
  sha512 := fun _ => []

/-- C2 witness: with an md5-reporting registry and an existing readable
file, the resolver takes the fresh-download path. -/
theorem c2_unknown_algorithm_witness :
    download_package envC2 ⟨false, FileState.present (ReadResult.bytes [3])⟩ =
      freshDownloadResult envC2
        ⟨false, FileState.present (ReadResult.bytes [3])⟩ [Ev.fetchMeta] := by
  have h := (c2_unknown_algorithm_forces_redownload envC2 "xyz" "md5" rfl).2
    ⟨false, FileState.present (ReadResult.bytes [3])⟩
  simpa using h

/-! ## C3: digest-check errors are absorbed into a fresh download -/

/-- C3: whenever the match check on an existing file ends in an error
(metadata transport failure, base64 decode failure, or local read
failure), `download_package` behaves exactly like the fresh
download-and-overwrite path: the digest-check error itself is never the
result of the call. -/
theorem c3_digest_check_error_absorbed (env : Env) (fs : FS) (e : Err)
    (hex : fs.file ≠ FileState.absent)
    (herr : (package_matches_hash env fs.file).1 = Outcome.err e) :
    download_package env fs = freshDownloadResult env fs [Ev.fetchMeta] := by
  have hp : pmhOut env fs.file = Outcome.err e := herr
  rcases hfs : fs.file with _ | r
  · exact absurd hfs hex
  · rw [hfs] at hp
    simp [download_package, checkMatches, package_matches_hash, hfs, hp,
      get_package_hash_trace]

/-- Environment for the C3 witness: the metadata request itself fails. -/
def envC3 : Env where
  metaResponse := Except.error Err.transport
  contentResponse := Except.ok [7]
  b64 := fun _ => none
  sha512 := fun _ => []

/-- C3 witness: a failing metadata fetch over an existing file leads to
the fresh-download path rather than surfacing the error. -/
theorem c3_digest_check_error_witness :
    download_package envC3 ⟨true, FileState.present (ReadResult.bytes [0])⟩ =
      freshDownloadResult envC3
        ⟨true, FileState.present (ReadResult.bytes [0])⟩ [Ev.fetchMeta] :=
  c3_digest_check_error_absorbed envC3
    ⟨true, FileState.present (ReadResult.bytes [0])⟩ Err.transport
    (by decide) rfl

/-! ## C5: a missing local file means download without a metadata fetch -/

/-- C5: when no file exists at the deterministic path, `download_package`
is exactly the fresh download-and-overwrite with no preceding events, and
in particular no metadata request is ever issued. -/
theorem c5_absent_file_unconditional_download (env : Env) (fs : FS)
    (h : fs.file = FileState.absent) :
    download_package env fs = freshDownloadResult env fs [] ∧
      Ev.fetchMeta ∉ (download_package env fs).2.2 := by
  have h1 : download_package env fs = freshDownloadResult env fs [] := by
    simp [download_package, checkMatches, h]
  refine ⟨h1, ?_⟩
  rw [h1, freshDownloadResult_trace]
  simpa using (download_package_overwrite_fetches env fs).2

/-- Environment for the C5 witness. -/
def envC5 : Env where
  metaResponse := Except.error Err.transport
  contentResponse := Except.ok [4]
  b64 := fun _ => none
  sha512 := fun _ => []

/-- C5 witness: the theorem applied to an empty cache directory. -/
theorem c5_absent_file_witness :
    download_package envC5 ⟨false, FileState.absent⟩ =
        freshDownloadResult envC5 ⟨false, FileState.absent⟩ [] ∧
      Ev.fetchMeta ∉ (download_package envC5 ⟨false, FileState.absent⟩).2.2 :=
  c5_absent_file_unconditional_download envC5 ⟨false, FileState.absent⟩ rfl

/-! ## C6: a digest match returns the existing file untouched -/

/-- C6: if a file exists at the deterministic path and the digest check
reports a match, the resolver returns the existing bytes, leaves the
filesystem state exactly as it was, and its whole trace is the single
metadata fetch (so no content fetch happens). -/
theorem c6_match_returns_existing_file (env : Env) (fs : FS)
    (_hex : fs.file ≠ FileState.absent)
    (hmatch : (package_matches_hash env fs.file).1 = Outcome.ok true) :
    ∃ bs : List Nat, fs.file = FileState.present (ReadResult.bytes bs) ∧
      download_package env fs = (Outcome.ok bs, fs, [Ev.fetchMeta]) := by
  have hp : pmhOut env fs.file = Outcome.ok true := hmatch
  obtain ⟨bs, hbs⟩ := pmhOut_ok_true env fs.file hp
  refine ⟨bs, hbs, ?_⟩
  rw [hbs] at hp
  simp [download_package, checkMatches, package_matches_hash, hbs, hp,
    get_package_hash_trace]

/-- Environment for the C6 witness: the reported digest decodes exactly to
the digest the hash function assigns to the local file. -/
def envC6 : Env where
  metaResponse := Except.ok
    [XmlItem.startElement "PackageHash", XmlItem.characters "H",
     XmlItem.startElement "PackageHashAlgorithm", XmlItem.characters "SHA512"]
  contentResponse := Except.ok [8]
  b64 := fun s => if s = "H" then some [1, 2, 3] else none
  sha512 := fun _ => [1, 2, 3]

/-- C6 witness: a matching cached file is returned as-is with only the
metadata fetch in the trace. -/
theorem c6_match_witness :
    ∃ bs : List Nat,
      (FS.mk true (FileState.present (ReadResult.bytes [9, 9]))).file =
          FileState.present (ReadResult.bytes bs) ∧
        download_package envC6 ⟨true, FileState.present (ReadResult.bytes [9, 9])⟩ =
          (Outcome.ok bs, ⟨true, FileState.present (ReadResult.bytes [9, 9])⟩,
           [Ev.fetchMeta]) :=
  c6_match_returns_existing_file envC6
    ⟨true, FileState.present (ReadResult.bytes [9, 9])⟩ (by decide) rfl

/-! ## C7: ordering of the steps of download-and-overwrite -/

/-- Environment for the C7 theorems: a successful content fetch. -/
def envC7 : Env where
  metaResponse := Except.ok []
  contentResponse := Except.ok [1, 2]
  b64 := fun _ => none
  sha512 := fun _ => []

/-- Environment for the C7 counterexample: the content fetch fails. -/
def envC7fail : Env where
  metaResponse := Except.ok []
  contentResponse := Except.error Err.transport
  b64 := fun _ => none
  sha512 := fun _ => []

/-- C7 counterexample: the source fetches the content bytes before
touching the filesystem, so the trace starts with the content fetch and
not with the directory creation the claim puts first; consequently, when
the fetch fails, the target directory has not been created at all. -/
theorem c7_fetch_precedes_mkdir :
    (download_package_overwrite envC7 ⟨false, FileState.absent⟩).2.2 =
        [Ev.fetchContent, Ev.mkdirAll, Ev.createFile, Ev.writeAll] ∧
      [Ev.fetchContent, Ev.mkdirAll, Ev.createFile, Ev.writeAll] ≠
        [Ev.mkdirAll, Ev.fetchContent, Ev.createFile, Ev.writeAll] ∧
      download_package_overwrite envC7fail ⟨false, FileState.absent⟩ =
        (Except.error Err.transport, ⟨false, FileState.absent⟩,
         [Ev.fetchContent]) :=
  ⟨rfl, by decide, rfl⟩

/-- C7 amended: on a successful content fetch,
`download_package_overwrite` first fetches the fresh bytes, then ensures
the directory, then creates (truncating) and writes the file, and returns
the written bytes as the new file handle. -/
theorem c7_overwrite_order (env : Env) (fs : FS) (bytes : List Nat)
    (h : env.contentResponse = Except.ok bytes) :
    download_package_overwrite env fs =
      (Except.ok bytes,
       ⟨true, FileState.present (ReadResult.bytes bytes)⟩,
       [Ev.fetchContent, Ev.mkdirAll, Ev.createFile, Ev.writeAll]) := by
  simp [download_package_overwrite, download_package_bytes, h]

/-- C7 witness: the amended ordering at a concrete environment. -/
theorem c7_overwrite_order_witness :
    download_package_overwrite envC7 ⟨false, FileState.absent⟩ =
      (Except.ok [1, 2], ⟨true, FileState.present (ReadResult.bytes [1, 2])⟩,
       [Ev.fetchContent, Ev.mkdirAll, Ev.createFile, Ev.writeAll]) :=
  c7_overwrite_order envC7 ⟨false, FileState.absent⟩ [1, 2] rfl

/-! ## C4: two consecutive calls cost exactly one content fetch -/

/-- C4: with a stable consistent registry (known SHA512 algorithm, a hash
that decodes to the digest of the content it serves) and an initially
absent local file, the first call downloads (one content fetch) and the
second call finds a digest match: it performs no content fetch, returns
the same bytes, and leaves the filesystem state untouched. -/
theorem c4_second_call_uses_cache (env : Env) (s : String) (bytes : List Nat)
    (fs0 : FS)
    (hmeta : (get_package_hash env).1 = Outcome.ok ⟨s, HashAlgorithm.SHA512⟩)
    (hcontent : env.contentResponse = Except.ok bytes)
    (hconsistent : env.b64 s = some (env.sha512 bytes))
    (habsent : fs0.file = FileState.absent) :
    download_package env fs0 =
        (Outcome.ok bytes, ⟨true, FileState.present (ReadResult.bytes bytes)⟩,
         [Ev.fetchContent, Ev.mkdirAll, Ev.createFile, Ev.writeAll]) ∧
      download_package env ⟨true, FileState.present (ReadResult.bytes bytes)⟩ =
        (Outcome.ok bytes, ⟨true, FileState.present (ReadResult.bytes bytes)⟩,
         [Ev.fetchMeta]) ∧
      [Ev.fetchContent, Ev.mkdirAll, Ev.createFile,
        Ev.writeAll].count Ev.fetchContent = 1 ∧
      [Ev.fetchMeta].count Ev.fetchContent = 0 := by
  refine ⟨?_, ?_, by decide, by decide⟩
  · simp [download_package, checkMatches, habsent, freshDownloadResult,
      download_package_overwrite, download_package_bytes, hcontent]
  · have hp : pmhOut env (FileState.present (ReadResult.bytes bytes)) =
        Outcome.ok true := by
      simp [pmhOut, hmeta, hconsistent, hashCompare_self]
    simp [download_package, checkMatches, package_matches_hash, hp,
      get_package_hash_trace]

/-- Environment for the C4 witness: a consistent registry. -/
def envC4 : Env where
  metaResponse := Except.ok
    [XmlItem.startElement "PackageHash", XmlItem.characters "h64",
     XmlItem.startElement "PackageHashAlgorithm", XmlItem.characters "sha512"]
  contentResponse := Except.ok [10, 11]
  b64 := fun t => if t = "h64" then some [1, 2, 3] else none
  sha512 := fun _ => [1, 2, 3]

/-- C4 witness: the two-call scenario at a concrete consistent registry
starting from an empty cache directory. -/
theorem c4_second_call_witness :
    download_package envC4 ⟨false, FileState.absent⟩ =
        (Outcome.ok [10, 11],
         ⟨true, FileState.present (ReadResult.bytes [10, 11])⟩,
         [Ev.fetchContent, Ev.mkdirAll, Ev.createFile, Ev.writeAll]) ∧
      download_package envC4
          ⟨true, FileState.present (ReadResult.bytes [10, 11])⟩ =
        (Outcome.ok [10, 11],
         ⟨true, FileState.present (ReadResult.bytes [10, 11])⟩,
         [Ev.fetchMeta]) ∧
      [Ev.fetchContent, Ev.mkdirAll, Ev.createFile,
        Ev.writeAll].count Ev.fetchContent = 1 ∧
      [Ev.fetchMeta].count Ev.fetchContent = 0 :=
  c4_second_call_uses_cache envC4 "h64" [10, 11] ⟨false, FileState.absent⟩
    rfl rfl rfl rfl

/-! ## C8: a missing metadata field is process-fatal -/

/-- Unfolding: the scanner on a `PackageHash` start element consumes the
following item. -/
theorem scanEvents_PH_cons (e2 : XmlItem) (rest : List XmlItem)
    (h a : Option String) :
    scanEvents (XmlItem.startElement "PackageHash" :: e2 :: rest) h a =
      match e2 with
      | XmlItem.characters s => scanEvents rest (some s) a
      | _ => ScanOut.panic := rfl

/-- Unfolding: the scanner on a `PackageHashAlgorithm` start element
consumes the following item. -/
theorem scanEvents_PHA_cons (e2 : XmlItem) (rest : List XmlItem)
    (h a : Option String) :
    scanEvents (XmlItem.startElement "PackageHashAlgorithm" :: e2 :: rest) h a =
      match e2 with
      | XmlItem.characters s => scanEvents rest h (some s)
      | _ => ScanOut.panic := rfl

/-- Unfolding: well-formedness through a `PackageHash` start element. -/
theorem wfDoc_PH_cons (e2 : XmlItem) (rest : List XmlItem) :
    wfDoc (XmlItem.startElement "PackageHash" :: e2 :: rest) =
      match e2 with
      | XmlItem.characters _ => wfDoc rest
      | _ => false := rfl

/-- Unfolding: well-formedness through a `PackageHashAlgorithm` start
element. -/
theorem wfDoc_PHA_cons (e2 : XmlItem) (rest : List XmlItem) :
    wfDoc (XmlItem.startElement "PackageHashAlgorithm" :: e2 :: rest) =
      match e2 with
      | XmlItem.characters _ => wfDoc rest
      | _ => false := rfl

/-- Unfolding: one `any` step of field presence. -/
theorem hasField_cons (f : String) (x : XmlItem) (rest : List XmlItem) :
    hasField f (x :: rest) = (isStart f x || hasField f rest) := by
  simp [hasField]

/-- On a well-formed document the scanner never panics, and each
accumulated field is set exactly when the field occurs in the document. -/
theorem scanEvents_wf (evs : List XmlItem) (h a : Option String) :
    wfDoc evs = true →
    ∃ h2 a2, scanEvents evs h a = ScanOut.done h2 a2 ∧
      h2.isSome = (h.isSome || hasField "PackageHash" evs) ∧
      a2.isSome = (a.isSome || hasField "PackageHashAlgorithm" evs) := by
  induction evs, h, a using scanEvents.induct with
  | case1 h a =>
      intro _
      exact ⟨h, a, rfl, by simp [hasField], by simp [hasField]⟩
  | case2 n h a htr =>
      intro hwf
      exfalso
      simp [wfDoc] at hwf
      simp [decide_eq_true_eq] at htr
      rcases htr with h1 | h1 <;> simp_all
  | case3 n h a htr =>
      intro _
      simp [decide_eq_true_eq] at htr
      obtain ⟨h1, h2⟩ := htr
      refine ⟨h, a, ?_, ?_, ?_⟩
      · simp [scanEvents, h1, h2]
      · simp [hasField, isStart, h1]
      · simp [hasField, isStart, h2]
  | case4 rest h a s ih =>
      intro hwf
      have hwf2 : wfDoc rest = true := by
        simpa [wfDoc_PH_cons] using hwf
      obtain ⟨h2, a2, hscan, hh, ha⟩ := ih hwf2
      refine ⟨h2, a2, ?_, ?_, ?_⟩
      · simpa [scanEvents_PH_cons] using hscan
      · simp [hasField_cons, isStart] at hh ⊢
        simpa using hh
      · simpa [hasField_cons, isStart] using ha
  | case5 e2 rest h a hne =>
      intro hwf
      exfalso
      cases e2 with
      | characters s => exact hne s rfl
      | startElement n => simp [wfDoc_PH_cons] at hwf
      | otherEvent => simp [wfDoc_PH_cons] at hwf
      | errItem => simp [wfDoc_PH_cons] at hwf
  | case6 rest h a s hne ih =>
      intro hwf
      have hwf2 : wfDoc rest = true := by
        simpa [wfDoc_PHA_cons] using hwf
      obtain ⟨h2, a2, hscan, hh, ha⟩ := ih hwf2
      refine ⟨h2, a2, ?_, ?_, ?_⟩
      · simpa [scanEvents_PHA_cons] using hscan
      · simpa [hasField_cons, isStart] using hh
      · simp [hasField_cons, isStart] at ha ⊢
        simpa using ha
  | case7 e2 rest h a hne hne2 =>
      intro hwf
      exfalso
      cases e2 with
      | characters s => exact hne s rfl
      | startElement n => simp [wfDoc_PHA_cons] at hwf
      | otherEvent => simp [wfDoc_PHA_cons] at hwf
      | errItem => simp [wfDoc_PHA_cons] at hwf
  | case8 n e2 rest h a hn1 hn2 ih =>
      intro hwf
      have hwf2 : wfDoc (e2 :: rest) = true := by
        simpa [wfDoc, hn1, hn2] using hwf
      obtain ⟨h2, a2, hscan, hh, ha⟩ := ih hwf2
      refine ⟨h2, a2, ?_, ?_, ?_⟩
      · simpa [scanEvents, hn1, hn2] using hscan
      · simpa [hasField_cons, isStart, hn1] using hh
      · simpa [hasField_cons, isStart, hn2] using ha
  | case9 head rest h a hns hnc ih =>
      intro hwf
      have hhead : ∀ n, head ≠ XmlItem.startElement n := by
        intro n hcon
        cases rest with
        | nil => exact hns n hcon rfl
        | cons y ys => exact hnc n y ys hcon rfl
      cases head with
      | startElement n => exact absurd rfl (hhead n)
      | characters s =>
          have hwf2 : wfDoc rest = true := by simpa [wfDoc] using hwf
          obtain ⟨h2, a2, hscan, hh, ha⟩ := ih hwf2
          exact ⟨h2, a2, by simpa [scanEvents] using hscan,
            by simpa [hasField_cons, isStart] using hh,
            by simpa [hasField_cons, isStart] using ha⟩
      | otherEvent =>
          have hwf2 : wfDoc rest = true := by simpa [wfDoc] using hwf
          obtain ⟨h2, a2, hscan, hh, ha⟩ := ih hwf2
          exact ⟨h2, a2, by simpa [scanEvents] using hscan,
            by simpa [hasField_cons, isStart] using hh,
            by simpa [hasField_cons, isStart] using ha⟩
      | errItem =>
          have hwf2 : wfDoc rest = true := by simpa [wfDoc] using hwf
          obtain ⟨h2, a2, hscan, hh, ha⟩ := ih hwf2
          exact ⟨h2, a2, by simpa [scanEvents] using hscan,
            by simpa [hasField_cons, isStart] using hh,
            by simpa [hasField_cons, isStart] using ha⟩

/-- C8: over a well-formed metadata document, if either the hash field or
the hash-algorithm field is absent, `get_package_hash` ends in the fatal
(process-halting) outcome rather than a recoverable error; if both fields
are present it returns a `PackageHash` value. -/
theorem c8_missing_field_fatal (env : Env) (evs : List XmlItem)
    (hresp : env.metaResponse = Except.ok evs) (hwf : wfDoc evs = true) :
    ((hasField "PackageHash" evs = false ∨
        hasField "PackageHashAlgorithm" evs = false) →
      (get_package_hash env).1 = Outcome.fatal) ∧
      (hasField "PackageHash" evs = true →
        hasField "PackageHashAlgorithm" evs = true →
        ∃ d : PackageHash, (get_package_hash env).1 = Outcome.ok d) := by
  obtain ⟨h2, a2, hscan, hh, ha⟩ := scanEvents_wf evs none none hwf
  have hgph : (get_package_hash env).1 = scanResult evs := by
    simp [get_package_hash, hresp]
  rw [hgph]
  unfold scanResult
  rw [hscan]
  constructor
  · rintro (hm | hm)
    · rw [hm] at hh
      cases h2 with
      | none => cases a2 <;> rfl
      | some v => simp at hh
    · rw [hm] at ha
      cases a2 with
      | none => cases h2 <;> rfl
      | some w => simp at ha
  · intro hm1 hm2
    rw [hm1] at hh
    rw [hm2] at ha
    cases h2 with
    | none => simp at hh
    | some v =>
        cases a2 with
        | none => simp at ha
        | some w => exact ⟨_, rfl⟩

/-- Environment for the C8 witness: a well-formed document that carries a
hash field but no hash-algorithm field. -/
def envC8 : Env where
  metaResponse := Except.ok
    [XmlItem.startElement "PackageHash", XmlItem.characters "abc"]
  contentResponse := Except.ok []
  b64 := fun _ => none
  sha512 := fun _ => []

/-- C8 witness: the missing algorithm field makes the metadata fetcher end
in the fatal outcome. -/
theorem c8_missing_field_witness : (get_package_hash envC8).1 = Outcome.fatal :=
  (c8_missing_field_fatal envC8
      [XmlItem.startElement "PackageHash", XmlItem.characters "abc"]
      rfl rfl).1 (Or.inr rfl)

end NugetDl
